import Mathlib

/-!
Verification development for the replacement-flag loader of
typhonjs-node-bundle/plugin-replace.

The embedding below translates the flag verification logic of
`PluginLoader.addFlags` (the `verify` callback and the `default`
resolver of the `replace` flag) and the transform configuration
factory `getInputPlugin` into executable Lean definitions.

Strings are modelled as lists of characters.  The JavaScript regular
expression `/(.+)=(.+)/` used by `verify` is modelled by `execMatch`:
`exec` looks for the leftmost starting position at which a match
exists; at that position the first greedy group `(.+)` captures the
longest run of non-newline characters that is followed by a literal
`=` and at least one further non-newline character, and the second
greedy group captures the remaining non-newline characters.  Hence
the separator chosen is the rightmost `=` of the first newline-free
run that admits a match, subject to non-empty text on both sides.
-/

set_option autoImplicit false

namespace PluginReplace

/-- Strings are modelled as lists of characters. -/
abbrev Str := List Char

/-- Converts a Lean string literal into the list-of-characters model. -/
def toL (s : String) : Str := s.data

/-- The single-quote character, built numerically so that quote
characters never appear raw inside string literals of this file. -/
def sq : Char := Char.ofNat 39

/-- Wraps a string in single quotes, as the JavaScript template
literals of the source do around certain message fragments. -/
def q (s : String) : Str := sq :: s.data ++ [sq]

/-- True for characters other than the newline character, the
characters matched by `.` in a JavaScript regular expression without
the dotAll flag. -/
def notNl (c : Char) : Bool := c != '\n'

/-- Splits a newline-free run at the last `=` that has at least one
character after it, allowing the left part to be empty.  Returns the
text before and after that `=`. -/
def splitLastEq0 : Str → Option (Str × Str)
  | [] => none
  | c :: rest =>
    match splitLastEq0 rest with
    | some (p, v) => some (c :: p, v)
    | none => if c = '=' && !rest.isEmpty then some ([], rest) else none

/-- Splits a run at the last `=` that has non-empty text on both
sides: the match of `(.+)=(.+)` at a fixed starting position, with
the first group greedy. -/
def splitLastEqPos : Str → Option (Str × Str)
  | [] => none
  | c :: rest =>
    match splitLastEq0 rest with
    | some (p, v) => some (c :: p, v)
    | none => none

/-- Models `/(.+)=(.+)/.exec(entry)`: tries each starting position
from the left; at each position the candidate match is confined to
the maximal newline-free run and the first group is greedy.  Returns
the two captured groups on success. -/
def execMatch : Str → Option (Str × Str)
  | [] => none
  | c :: rest =>
    match splitLastEqPos (List.takeWhile notNl (c :: rest)) with
    | some pv => some pv
    | none => execMatch rest

/-- The own property names of `Object.prototype` in a JavaScript
runtime: the `in` operator used by `verify` for the duplicate check
reports these as present even in a freshly created empty object. -/
def protoNames : List Str :=
  [toL ("constructor"), toL ("hasOwnProperty"), toL ("isPrototypeOf"),
   toL ("propertyIsEnumerable"), toL ("toLocaleString"), toL ("toString"),
   toL ("valueOf"), toL ("__defineGetter__"), toL ("__defineSetter__"),
   toL ("__lookupGetter__"), toL ("__lookupSetter__"), toL ("__proto__")]

/-- An own key of the accumulating entries object. -/
def ownKey (m : List (Str × Str)) (k : Str) : Bool :=
  m.any (fun p => p.1 == k)

/-- Models `k in entries`: own keys plus the properties inherited
from `Object.prototype`. -/
def keyIn (m : List (Str × Str)) (k : Str) : Bool :=
  ownKey m k || protoNames.contains k

/-- The mutable state of the `forEach` loop in `verify`: the
malformed entries, the duplicate entries and the accumulated
key-to-value object (insertion ordered). -/
structure VState where
  bad : List Str
  warn : List Str
  entries : List (Str × Str)
  deriving DecidableEq, Repr

/-- One iteration of the `forEach` loop of `verify` on one entry. -/
def vstep (st : VState) (entry : Str) : VState :=
  match execMatch entry with
  | some (k, v) =>
    if keyIn st.entries k then
      { st with warn := st.warn ++ [entry] }
    else
      { st with entries := st.entries ++ [(k, v)] }
  | none => { st with bad := st.bad ++ [entry] }

/-- The whole `forEach` loop of `verify` over the input array. -/
def vrun (arr : List Str) : VState :=
  List.foldl vstep ⟨[], [], []⟩ arr

/-- Hexadecimal digit characters, lowercase, as `JSON.stringify`
produces in `\u00xx` escapes. -/
def hexDigit (n : Nat) : Char :=
  if n < 10 then Char.ofNat (48 + n) else Char.ofNat (87 + n)

/-- The escape of one character inside a `JSON.stringify` string
literal. -/
def escChar (c : Char) : Str :=
  if c = '"' then ['\\', '"']
  else if c = '\\' then ['\\', '\\']
  else if c = Char.ofNat 8 then ['\\', 'b']
  else if c = '\t' then ['\\', 't']
  else if c = '\n' then ['\\', 'n']
  else if c = Char.ofNat 12 then ['\\', 'f']
  else if c = Char.ofNat 13 then ['\\', 'r']
  else if c.toNat < 32 then
    toL ("\\u00") ++ [hexDigit (c.toNat / 16), hexDigit (c.toNat % 16)]
  else [c]

/-- `JSON.stringify` of a single string. -/
def stringifyStr (s : Str) : Str :=
  '"' :: (s.map escChar).flatten ++ ['"']

/-- Joins serialized elements with commas. -/
def joinComma : List Str → Str
  | [] => []
  | [x] => x
  | x :: y :: rest => x ++ ',' :: joinComma (y :: rest)

/-- `JSON.stringify` of an array of strings. -/
def stringifyArr (xs : List Str) : Str :=
  '[' :: joinComma (xs.map stringifyStr) ++ [']']

/-- The fixed first line of the verification error message. -/
def preface : Str := toL ("plugin-replace verification failure:\n")

/-- The tail of the malformed-entries line, stating the required
shape of an entry. -/
def shapeNote : Str :=
  toL (" each entry must be a ") ++ q ("string") ++
    toL (" in the format of ") ++ q ("<xxx>=<yyy>") ++ toL (".")

/-- The malformed-entries line of the error message. -/
def badText (bad : List Str) : Str :=
  toL ("- can not parse ") ++ stringifyArr bad ++ shapeNote

/-- The duplicate-entries line of the error message. -/
def warnText (warn : List Str) : Str :=
  toL ("- the following entries overwrite previous entries ") ++
    stringifyArr warn ++ toL (".")

/-- Builds `errorMessage` exactly as `verify` does: the preface, then
the malformed-entries line when `badEntries` is non-empty, then the
duplicate-entries line (preceded by a newline when the malformed line
was appended) when `warnEntries` is non-empty. -/
def buildMsg (bad warn : List Str) : Str :=
  let m1 := preface
  let m2 := if bad.length > 0 then m1 ++ badText bad else m1
  if warn.length > 0 then
    m2 ++ ((if bad.length > 0 then toL ("\n") else []) ++ warnText warn)
  else m2

/-- A property value of the object stored into `flags.replace`: a
string value coming from an accumulated entry, or an array of strings
as held by the `delimiters` marker. -/
inductive PropVal where
  | str (s : Str)
  | arr (xs : List Str)
  deriving DecidableEq, Repr

/-- The property list of a JavaScript object, in insertion order. -/
abbrev Props := List (Str × PropVal)

/-- The accumulated entries viewed as string-valued properties. -/
def strProps (m : List (Str × Str)) : Props :=
  m.map (fun p => (p.1, PropVal.str p.2))

/-- JavaScript property assignment on an object: when the key is
already an own key its value is replaced in place (the property keeps
its position in insertion order), otherwise the property is appended.
This models the post-loop `flags.replace.delimiters = ['', '']`
write, which overwrites an accumulated entry keyed `delimiters`. -/
def setProp (m : Props) (k : Str) (v : PropVal) : Props :=
  if m.any (fun p => p.1 == k) then
    m.map (fun p => if p.1 == k then (p.1, v) else p)
  else m ++ [(k, v)]

/-- The name of the `delimiters` marker property. -/
def delimKey : Str := toL ("delimiters")

/-- The two-element delimiters marker of empty strings. -/
def delimMarker : PropVal := PropVal.arr [[], []]

/-- The value held by `flags.replace` (respectively
`bundleData.cliFlags.replace`): undefined, a plain string, the string
array produced by flag parsing, or the object `verify` normalized it
into. -/
inductive FlagVal where
  | undef
  | strv (s : Str)
  | strArr (a : List Str)
  | mapVal (m : Props)
  deriving DecidableEq, Repr

/-- The body of `verify` on an array-valued flag: runs the loop,
stores the accumulated entries object into the flag, assigns the
`delimiters` marker property on it (overwriting an accumulated entry
of that key, if any), then builds the error message and throws it
when it differs from the bare preface.  The first component is the
stored flag value when the function returns or throws; the second is
the thrown `NonFatalError` message, when any. -/
def verifyArr (arr : List Str) : Props × Option Str :=
  let st := vrun arr
  let stored : Props := setProp (strProps st.entries) delimKey delimMarker
  let msg := buildMsg st.bad st.warn
  (stored, if msg = preface then none else some msg)

/-- The whole `verify` callback: on a non-array flag value it does
nothing; on an array it runs `verifyArr` and replaces the flag value
with the stored object. -/
def verify : FlagVal → FlagVal × Option Str
  | FlagVal.strArr a =>
    let r := verifyArr a
    (FlagVal.mapVal r.1, r.2)
  | v => (v, none)

/-- The argument handed to the external `@rollup/plugin-replace`
factory by `getInputPlugin`: the flag value (an object under the
JavaScript `typeof` test, hence either the normalized map or still an
array) with the `preventAssignment` property merged in by
`Object.assign`. -/
inductive ReplaceArg where
  | ofMap (props : Props) (preventAssignment : Bool)
  | ofArr (a : List Str) (preventAssignment : Bool)
  deriving DecidableEq, Repr

/-- Models `typeof x === Object(...)`: in JavaScript, arrays and
plain objects both have `typeof` equal to the object type tag, while
undefined and strings do not. -/
def typeofIsObject : FlagVal → Bool
  | FlagVal.strArr _ => true
  | FlagVal.mapVal _ => true
  | _ => false

/-- The `cliFlags` object of the bundle data. -/
structure CliFlags where
  replace : FlagVal
  deriving DecidableEq, Repr

/-- The bundle data passed to `getInputPlugin`; `cliFlags` may be
absent (falsy). -/
structure BundleData where
  cliFlags : Option CliFlags
  deriving DecidableEq, Repr

/-- Models `getInputPlugin`: when `cliFlags` is truthy and
`typeof cliFlags.replace` is the object type tag, passes the flag
value with `preventAssignment` set to the external factory; returns
undefined otherwise. -/
def getInputPlugin (b : BundleData) : Option ReplaceArg :=
  match b.cliFlags with
  | some cf =>
    if typeofIsObject cf.replace then
      some (match cf.replace with
        | FlagVal.strArr a => ReplaceArg.ofArr a true
        | FlagVal.mapVal m => ReplaceArg.ofMap m true
        | FlagVal.undef => ReplaceArg.ofArr [] true
        | FlagVal.strv s => ReplaceArg.ofArr [s] true)
    else none
  | none => none

/-- JSON values, as produced by `JSON.parse`. -/
inductive Json where
  | jNull
  | jBool (b : Bool)
  | jNum (n : Int)
  | jStr (s : Str)
  | jArr (xs : List Json)
  | jObj (fields : List (Str × Json))

/-- `Array.isArray` on a parsed JSON value. -/
def jsonIsArray : Json → Bool
  | Json.jArr _ => true
  | _ => false

/-- The environment variable slot read by the default resolver:
unset, set to a non-string value, or set to a string. -/
inductive EnvVal where
  | unset
  | notStr
  | str (s : Str)

/-- The outcome of the `default` function of the `replace` flag:
absence (`void 0`), a parsed JSON array, or a thrown `NonFatalError`
message. -/
inductive DefaultResult where
  | absent
  | val (xs : List Json)
  | err (msg : Str)

/-- Models the `default` function of the `replace` flag.  `JSON.parse`
is an external platform routine and is passed in as `parse`, returning
either a parse error message or the parsed value.  When `context` is
null the environment is replaced by an empty object, so every
variable reads as unset. -/
def resolveDefault (contextIsNull : Bool) (pfx : Str) (env : EnvVal)
    (parse : Str → Except Str Json) : DefaultResult :=
  let envVar := pfx ++ toL ("_REPLACE")
  let effEnv := if contextIsNull then EnvVal.unset else env
  match effEnv with
  | EnvVal.str s =>
    match parse s with
    | Except.error e =>
      DefaultResult.err (toL ("Could not parse ") ++ [sq] ++ envVar ++ [sq] ++
        toL (" as a JSON array;\n") ++ e)
    | Except.ok v =>
      match v with
      | Json.jArr xs => DefaultResult.val xs
      | _ =>
        DefaultResult.err (toL ("Please format ") ++ [sq] ++ envVar ++ [sq] ++
          toL (" as a JSON array."))
  | _ => DefaultResult.absent

/-- One string occurs inside another. -/
def OccursIn (needle hay : Str) : Prop :=
  ∃ u v, hay = u ++ needle ++ v

/-- An entry is malformed in the sense of the specification: it has
no `=` at all, or every `=` in it has empty text on one side. -/
def MalformedShape (e : Str) : Prop :=
  ¬ ∃ u v, e = u ++ '=' :: v ∧ u ≠ [] ∧ v ≠ []

/-! Helper lemmas about the match model. -/

theorem splitLastEq0_sound : ∀ {r p v : Str}, splitLastEq0 r = some (p, v) →
    r = p ++ '=' :: v ∧ v ≠ [] := by
  intro r
  induction r with
  | nil => intro p v h; simp [splitLastEq0] at h
  | cons c rest ih =>
    intro p v h
    simp only [splitLastEq0] at h
    cases hr : splitLastEq0 rest with
    | some pv =>
      obtain ⟨p', v'⟩ := pv
      rw [hr] at h
      simp only [Option.some.injEq, Prod.mk.injEq] at h
      obtain ⟨hp, hv⟩ := h
      obtain ⟨hrest, hne⟩ := ih hr
      subst hp hv
      exact ⟨by rw [hrest]; rfl, hne⟩
    | none =>
      rw [hr] at h
      by_cases hc : c = '=' ∧ rest ≠ []
      · rw [if_pos (by simp [hc.1, hc.2])] at h
        simp only [Option.some.injEq, Prod.mk.injEq] at h
        refine ⟨?_, ?_⟩
        · rw [← h.1, ← h.2, hc.1]; rfl
        · rw [← h.2]; exact hc.2
      · rw [if_neg ?_] at h
        · exact Option.noConfusion h
        · simp only [Bool.and_eq_true, decide_eq_true_eq, Bool.not_eq_true',
            List.isEmpty_eq_false]
          exact hc

theorem splitLastEq0_append (p : Str) {v : Str} (hv : v ≠ [])
    (hnone : splitLastEq0 v = none) :
    splitLastEq0 (p ++ '=' :: v) = some (p, v) := by
  induction p with
  | nil =>
    simp only [List.nil_append, splitLastEq0, hnone]
    rw [if_pos (by simp [hv])]
  | cons c p ih =>
    simp only [List.cons_append, splitLastEq0, List.append_eq, ih]

theorem splitLastEq0_eq_none {v : Str} (h : '=' ∉ v) : splitLastEq0 v = none := by
  induction v with
  | nil => rfl
  | cons c rest ih =>
    rw [List.mem_cons] at h
    push_neg at h
    simp only [splitLastEq0, ih h.2]
    rw [if_neg (by simp; exact fun hh => absurd hh.symm h.1)]

theorem splitLastEq0_eq_none_of_no_tail {v : Str}
    (h : ¬ ∃ v1 v2, v = v1 ++ '=' :: v2 ∧ v2 ≠ []) : splitLastEq0 v = none := by
  cases hs : splitLastEq0 v with
  | none => rfl
  | some pv =>
    obtain ⟨p', v'⟩ := pv
    obtain ⟨he, hne⟩ := splitLastEq0_sound hs
    exact absurd ⟨p', v', he, hne⟩ h

theorem not_mem_no_tail {v : Str} (h : '=' ∉ v) :
    ¬ ∃ v1 v2, v = v1 ++ '=' :: v2 ∧ v2 ≠ [] := by
  rintro ⟨v1, v2, he, -⟩
  apply h
  rw [he]
  simp

theorem takeWhile_notNl {s : Str} (h : '\n' ∉ s) : List.takeWhile notNl s = s := by
  induction s with
  | nil => rfl
  | cons c rest ih =>
    rw [List.mem_cons] at h
    push_neg at h
    have hc : notNl c = true := by
      simp only [notNl, bne_iff_ne, ne_eq]
      exact fun hh => h.1 hh.symm
    simp only [List.takeWhile_cons, hc, if_true, ih h.2]

theorem splitLastEqPos_sound {r p v : Str} (h : splitLastEqPos r = some (p, v)) :
    r = p ++ '=' :: v ∧ p ≠ [] ∧ v ≠ [] := by
  cases r with
  | nil => simp [splitLastEqPos] at h
  | cons c rest =>
    simp only [splitLastEqPos] at h
    cases hr : splitLastEq0 rest with
    | some pv =>
      obtain ⟨p', v'⟩ := pv
      rw [hr] at h
      simp only [Option.some.injEq, Prod.mk.injEq] at h
      obtain ⟨he, hne⟩ := splitLastEq0_sound hr
      refine ⟨?_, ?_, ?_⟩
      · rw [← h.1, ← h.2, he]; rfl
      · rw [← h.1]; simp
      · rw [← h.2]; exact hne
    | none =>
      rw [hr] at h
      exact Option.noConfusion h

theorem execMatch_append {p v : Str} (hp : p ≠ []) (hv : v ≠ [])
    (hnp : '\n' ∉ p) (hnv : '\n' ∉ v) (hnone : splitLastEq0 v = none) :
    execMatch (p ++ '=' :: v) = some (p, v) := by
  obtain ⟨c, p', rfl⟩ := List.exists_cons_of_ne_nil hp
  have hnl : '\n' ∉ c :: (p' ++ '=' :: v) := by
    intro hm
    rcases List.mem_cons.1 hm with h0 | hm'
    · exact hnp (by rw [h0]; exact List.mem_cons_self _ _)
    · rcases List.mem_append.1 hm' with h1 | h2
      · exact hnp (List.mem_cons_of_mem _ h1)
      · rcases List.mem_cons.1 h2 with h3 | h4
        · exact absurd h3 (by decide)
        · exact hnv h4
  show execMatch (c :: (p' ++ '=' :: v)) = _
  rw [execMatch, takeWhile_notNl hnl]
  simp only [splitLastEqPos, splitLastEq0_append p' hv hnone]

theorem execMatch_sound : ∀ {s p v : Str}, execMatch s = some (p, v) →
    (∃ t w, s = t ++ p ++ '=' :: (v ++ w)) ∧ p ≠ [] ∧ v ≠ [] := by
  intro s
  induction s with
  | nil => intro p v h; simp [execMatch] at h
  | cons c rest ih =>
    intro p v h
    rw [execMatch] at h
    cases hsp : splitLastEqPos (List.takeWhile notNl (c :: rest)) with
    | some pv =>
      rw [hsp] at h
      obtain ⟨p0, v0⟩ := pv
      simp only [Option.some.injEq, Prod.mk.injEq] at h
      obtain ⟨hrun, hp0, hv0⟩ := splitLastEqPos_sound hsp
      rw [h.1] at hp0
      rw [h.2] at hv0
      refine ⟨⟨[], List.dropWhile notNl (c :: rest), ?_⟩, hp0, hv0⟩
      conv_lhs => rw [← List.takeWhile_append_dropWhile (p := notNl) (l := c :: rest)]
      rw [hrun, h.1, h.2]
      simp
    | none =>
      rw [hsp] at h
      obtain ⟨⟨t, w, hs⟩, hp2, hv2⟩ := ih h
      exact ⟨⟨c :: t, w, by simp [hs]⟩, hp2, hv2⟩

theorem malformed_execMatch {e : Str} (h : MalformedShape e) : execMatch e = none := by
  cases hm : execMatch e with
  | none => rfl
  | some pv =>
    obtain ⟨p, v⟩ := pv
    obtain ⟨⟨t, w, hs⟩, hp, hv⟩ := execMatch_sound hm
    refine absurd ⟨t ++ p, v ++ w, ?_, ?_, ?_⟩ h
    · rw [hs]
    · simp [hp]
    · simp [hv]

theorem noEq_malformed {e : Str} (h : '=' ∉ e) : MalformedShape e := by
  rintro ⟨u, v, he, hu, -⟩
  apply h
  rw [he]
  simp

/-! Helper lemmas about the verification loop and the error message. -/

theorem vrun_append (l1 l2 : List Str) :
    vrun (l1 ++ l2) = List.foldl vstep (vrun l1) l2 := by
  simp [vrun, List.foldl_append]

theorem vstep_warn (st : VState) (e : Str) :
    ∃ t, (vstep st e).warn = st.warn ++ t := by
  simp only [vstep]
  cases hm : execMatch e with
  | none => exact ⟨[], by simp⟩
  | some kv =>
    obtain ⟨k, v⟩ := kv
    by_cases hk : keyIn st.entries k = true
    · simp only [hk, if_true]
      exact ⟨[e], rfl⟩
    · simp only [hk, if_false]
      exact ⟨[], by simp⟩

theorem vstep_bad (st : VState) (e : Str) :
    ∃ t, (vstep st e).bad = st.bad ++ t := by
  simp only [vstep]
  cases hm : execMatch e with
  | none => exact ⟨[e], rfl⟩
  | some kv =>
    obtain ⟨k, v⟩ := kv
    by_cases hk : keyIn st.entries k = true
    · simp only [hk, if_true]
      exact ⟨[], by simp⟩
    · simp only [hk, if_false]
      exact ⟨[], by simp⟩

theorem foldl_warn (l : List Str) : ∀ st : VState,
    ∃ t, (List.foldl vstep st l).warn = st.warn ++ t := by
  induction l with
  | nil => exact fun st => ⟨[], by simp⟩
  | cons e l ih =>
    intro st
    obtain ⟨t1, h1⟩ := ih (vstep st e)
    obtain ⟨t0, h0⟩ := vstep_warn st e
    exact ⟨t0 ++ t1, by rw [List.foldl_cons, h1, h0, List.append_assoc]⟩

theorem foldl_bad (l : List Str) : ∀ st : VState,
    ∃ t, (List.foldl vstep st l).bad = st.bad ++ t := by
  induction l with
  | nil => exact fun st => ⟨[], by simp⟩
  | cons e l ih =>
    intro st
    obtain ⟨t1, h1⟩ := ih (vstep st e)
    obtain ⟨t0, h0⟩ := vstep_bad st e
    exact ⟨t0 ++ t1, by rw [List.foldl_cons, h1, h0, List.append_assoc]⟩

theorem buildMsg_eq (bad warn : List Str) :
    buildMsg bad warn = preface ++
      ((if bad.length > 0 then badText bad else []) ++
       (if warn.length > 0 then
          (if bad.length > 0 then toL ("\n") else []) ++ warnText warn
        else [])) := by
  rw [buildMsg]
  by_cases hb : bad.length > 0 <;> by_cases hw : warn.length > 0 <;>
    simp [hb, hw]

theorem badText_ne_nil (bad : List Str) : badText bad ≠ [] := by
  intro h
  rw [badText, List.append_eq_nil, List.append_eq_nil] at h
  exact absurd h.1.1 (by decide)

theorem warnText_ne_nil (warn : List Str) : warnText warn ≠ [] := by
  intro h
  rw [warnText, List.append_eq_nil, List.append_eq_nil] at h
  exact absurd h.1.1 (by decide)

theorem buildMsg_ne_preface {bad warn : List Str} (h : bad ≠ [] ∨ warn ≠ []) :
    buildMsg bad warn ≠ preface := by
  intro heq
  rw [buildMsg_eq] at heq
  have hx := List.append_cancel_left (heq.trans (List.append_nil preface).symm)
  rw [List.append_eq_nil] at hx
  rcases h with h | h
  · rw [if_pos (List.length_pos.2 h)] at hx
    exact badText_ne_nil bad hx.1
  · have h2 := hx.2
    rw [if_pos (List.length_pos.2 h)] at h2
    rw [List.append_eq_nil] at h2
    exact warnText_ne_nil warn h2.2

theorem buildMsg_warn_decomp {warn : List Str} (bad : List Str) (h : warn ≠ []) :
    ∃ X, buildMsg bad warn = X ++ warnText warn := by
  rw [buildMsg_eq, if_pos (List.length_pos.2 h)]
  exact ⟨preface ++ ((if bad.length > 0 then badText bad else []) ++
    (if bad.length > 0 then toL ("\n") else [])), by simp [List.append_assoc]⟩

theorem buildMsg_bad_decomp {bad : List Str} (warn : List Str) (h : bad ≠ []) :
    ∃ Y, buildMsg bad warn = preface ++ (badText bad ++ Y) := by
  rw [buildMsg_eq, if_pos (List.length_pos.2 h)]
  exact ⟨_, rfl⟩

theorem occursIn_joinComma : ∀ (xs : List Str) (e : Str), e ∈ xs →
    OccursIn e (joinComma xs) := by
  intro xs
  induction xs with
  | nil => intro e h; exact absurd h (List.not_mem_nil e)
  | cons x rest ih =>
    intro e h
    rcases List.mem_cons.1 h with h0 | h1
    · cases rest with
      | nil => exact ⟨[], [], by simp [joinComma, h0]⟩
      | cons y r => exact ⟨[], ',' :: joinComma (y :: r), by simp [joinComma, h0]⟩
    · obtain ⟨u, v, hj⟩ := ih e h1
      cases rest with
      | nil => exact absurd h1 (List.not_mem_nil e)
      | cons y r =>
        exact ⟨x ++ ',' :: u, v, by simp [joinComma, hj, List.append_assoc]⟩

theorem occursIn_stringifyArr {e : Str} {xs : List Str} (h : e ∈ xs) :
    OccursIn (stringifyStr e) (stringifyArr xs) := by
  obtain ⟨u, v, hj⟩ := occursIn_joinComma _ _ (List.mem_map_of_mem stringifyStr h)
  exact ⟨'[' :: u, v ++ [']'], by simp [stringifyArr, hj, List.append_assoc]⟩

theorem occursIn_msg_of_warn {e : Str} {bad warn : List Str} (h : e ∈ warn) :
    OccursIn (stringifyStr e) (buildMsg bad warn) := by
  obtain ⟨X, hX⟩ := buildMsg_warn_decomp bad (List.ne_nil_of_mem h)
  obtain ⟨u, v, hj⟩ := occursIn_stringifyArr h
  refine ⟨X ++ (toL ("- the following entries overwrite previous entries ") ++ u),
    v ++ toL ("."), ?_⟩
  rw [hX, warnText, hj]
  simp [List.append_assoc]

theorem occursIn_msg_of_bad {e : Str} {bad : List Str} (warn : List Str)
    (h : e ∈ bad) : OccursIn (stringifyStr e) (buildMsg bad warn) := by
  obtain ⟨Y, hY⟩ := buildMsg_bad_decomp warn (List.ne_nil_of_mem h)
  obtain ⟨u, v, hj⟩ := occursIn_stringifyArr h
  refine ⟨preface ++ (toL ("- can not parse ") ++ u),
    v ++ (shapeNote ++ Y), ?_⟩
  rw [hY, badText, hj]
  simp [List.append_assoc]

theorem occursIn_msg_shapeNote {bad : List Str} (warn : List Str)
    (h : bad ≠ []) : OccursIn shapeNote (buildMsg bad warn) := by
  obtain ⟨Y, hY⟩ := buildMsg_bad_decomp warn h
  refine ⟨preface ++ (toL ("- can not parse ") ++ stringifyArr bad), Y, ?_⟩
  rw [hY, badText]
  simp [List.append_assoc]

theorem verify_err_some {arr : List Str}
    (h : (vrun arr).bad ≠ [] ∨ (vrun arr).warn ≠ []) :
    (verify (FlagVal.strArr arr)).2 =
      some (buildMsg (vrun arr).bad (vrun arr).warn) := by
  show (verifyArr arr).2 = _
  simp only [verifyArr]
  rw [if_neg (buildMsg_ne_preface h)]

theorem vstep_dup {st : VState} {e k v : Str} (hm : execMatch e = some (k, v))
    (hk : keyIn st.entries k = true) :
    vstep st e = { st with warn := st.warn ++ [e] } := by
  simp only [vstep, hm, hk, if_true]

theorem vstep_badstep {st : VState} {e : Str} (hm : execMatch e = none) :
    vstep st e = { st with bad := st.bad ++ [e] } := by
  simp only [vstep, hm]

theorem protoNames_wf : ∀ k ∈ protoNames, k ≠ [] ∧ '=' ∉ k ∧ '\n' ∉ k := by
  decide

theorem setProp_append {m : Props} {k : Str} (v : PropVal)
    (h : ∀ p ∈ m, p.1 ≠ k) : setProp m k v = m ++ [(k, v)] := by
  rw [setProp, if_neg]
  intro hany
  obtain ⟨p, hp, hpk⟩ := List.any_eq_true.1 hany
  exact h p hp (eq_of_beq hpk)

theorem setProp_mem (m : Props) (k : Str) (v : PropVal) :
    (k, v) ∈ setProp m k v := by
  rw [setProp]
  by_cases h : m.any (fun p => p.1 == k) = true
  · rw [if_pos h]
    obtain ⟨p, hp, hpk⟩ := List.any_eq_true.1 h
    exact List.mem_map.2 ⟨p, hp, by rw [if_pos hpk, eq_of_beq hpk]⟩
  · rw [if_neg h]
    exact List.mem_append_right _ (List.mem_singleton.2 rfl)

theorem strProps_keys {m : List (Str × Str)} {k : Str}
    (h : ∀ p ∈ m, p.1 ≠ k) : ∀ p ∈ strProps m, p.1 ≠ k := by
  intro p hp
  obtain ⟨q, hq, rfl⟩ := List.mem_map.1 hp
  exact h q hq

/-! The claims. -/

/-- C1: for every input array, when a well-formed entry has a
left-hand key already present in the accumulating map, the earlier
binding is retained (the step leaves the entries unchanged), the full
original entry string is appended to the duplicate-entries list, and
verification raises an error whose message lists the serialized entry
string; in particular, verifying the array with entries a=1 and a=2
stores the single binding of a to 1 and the error message lists the
serialization of a=2. -/
theorem claim_C1 :
    (∀ (st : VState) (e k v : Str), execMatch e = some (k, v) →
        ownKey st.entries k = true →
        vstep st e = { st with warn := st.warn ++ [e] }) ∧
    (∀ (pre post : List Str) (e k v : Str), execMatch e = some (k, v) →
        ownKey (vrun pre).entries k = true →
        ∃ msg, (verify (FlagVal.strArr (pre ++ e :: post))).2 = some msg ∧
          OccursIn (stringifyStr e) msg) ∧
    ((verify (FlagVal.strArr [toL ("a=1"), toL ("a=2")])).1 =
        FlagVal.mapVal [(toL ("a"), PropVal.str (toL ("1"))),
          (delimKey, delimMarker)] ∧
      ∃ msg, (verify (FlagVal.strArr [toL ("a=1"), toL ("a=2")])).2 = some msg ∧
        OccursIn (stringifyStr (toL ("a=2"))) msg) := by
  have key : ∀ (st : VState) (e k v : Str), execMatch e = some (k, v) →
      ownKey st.entries k = true →
      vstep st e = { st with warn := st.warn ++ [e] } := by
    intro st e k v hm hk
    exact vstep_dup hm (by simp [keyIn, hk])
  refine ⟨key, ?_, ?_, ?_⟩
  · intro pre post e k v hm hk
    have hwarn : ∃ t, (vrun (pre ++ e :: post)).warn =
        ((vrun pre).warn ++ [e]) ++ t := by
      rw [vrun_append, List.foldl_cons]
      obtain ⟨t, ht⟩ := foldl_warn post (vstep (vrun pre) e)
      refine ⟨t, ?_⟩
      rw [ht, key (vrun pre) e k v hm hk]
    obtain ⟨t, ht⟩ := hwarn
    have hmem : e ∈ (vrun (pre ++ e :: post)).warn := by rw [ht]; simp
    exact ⟨_, verify_err_some (Or.inr (List.ne_nil_of_mem hmem)),
      occursIn_msg_of_warn hmem⟩
  · decide
  · have hmem : toL ("a=2") ∈ (vrun [toL ("a=1"), toL ("a=2")]).warn := by decide
    exact ⟨_, verify_err_some (Or.inr (List.ne_nil_of_mem hmem)),
      occursIn_msg_of_warn hmem⟩

/-- Witness for C1 at the concrete inputs of the claim. -/
theorem claim_C1_witness :
    (vstep ⟨[], [], [(toL ("a"), toL ("1"))]⟩ (toL ("a=2")) =
      { bad := [], warn := [toL ("a=2")],
        entries := [(toL ("a"), toL ("1"))] }) ∧
    (∃ msg,
      (verify (FlagVal.strArr ([toL ("a=1")] ++ toL ("a=2") :: []))).2 =
        some msg ∧ OccursIn (stringifyStr (toL ("a=2"))) msg) := by
  constructor
  · exact claim_C1.1 ⟨[], [], [(toL ("a"), toL ("1"))]⟩ (toL ("a=2"))
      (toL ("a")) (toL ("2")) (by decide) (by decide)
  · exact claim_C1.2.1 [toL ("a=1")] [] (toL ("a=2")) (toL ("a")) (toL ("2"))
      (by decide) (by decide)

/-- C2 counterexample: with a the non-empty string x containing no
equals sign and b the non-empty string y=z, verifying the one-element
array holding a=b raises no error but does not store the binding of a
to b: the greedy match instead stores the binding of x=y to z. -/
theorem claim_C2_counterexample :
    toL ("x") ≠ [] ∧ toL ("y=z") ≠ [] ∧ '=' ∉ toL ("x") ∧
    toL ("x") ++ '=' :: toL ("y=z") = toL ("x=y=z") ∧
    (verify (FlagVal.strArr [toL ("x=y=z")])).2 = none ∧
    (verify (FlagVal.strArr [toL ("x=y=z")])).1 ≠
      FlagVal.mapVal [(toL ("x"), PropVal.str (toL ("y=z"))),
        (delimKey, delimMarker)] := by
  decide

/-- C2 (amended): for every pair of non-empty strings a and b where a
contains no equals sign, b contains no equals sign, neither contains
a newline, a is not the name of a property of Object.prototype, and a
is not the string delimiters (whose binding the post-loop marker
assignment would overwrite), verifying the one-element array holding
a=b succeeds without raising an error and stores the map binding a to
b (followed by the marker property). -/
theorem claim_C2 (a b : Str) (ha : a ≠ []) (hb : b ≠ [])
    (hea : '=' ∉ a) (heb : '=' ∉ b) (hna : '\n' ∉ a) (hnb : '\n' ∉ b)
    (hp : a ∉ protoNames) (hd : a ≠ delimKey) :
    verify (FlagVal.strArr [a ++ '=' :: b]) =
      (FlagVal.mapVal [(a, PropVal.str b), (delimKey, delimMarker)],
       none) := by
  have hm : execMatch (a ++ '=' :: b) = some (a, b) :=
    execMatch_append ha hb hna hnb (splitLastEq0_eq_none heb)
  have hvr : vrun [a ++ '=' :: b] = ⟨[], [], [(a, b)]⟩ := by
    simp only [vrun, List.foldl_cons, List.foldl_nil, vstep, hm]
    rw [if_neg (by simp [keyIn, ownKey, hp])]
    rfl
  show (FlagVal.mapVal (verifyArr _).1, (verifyArr _).2) = _
  simp only [verifyArr, hvr]
  rw [show strProps [(a, b)] = [(a, PropVal.str b)] from rfl,
    setProp_append delimMarker
      (by intro p hp2; rw [List.mem_singleton.1 hp2]; exact hd)]
  rfl

/-- Witness for C2 (amended) at a concrete well-formed entry. -/
theorem claim_C2_witness :
    verify (FlagVal.strArr [toL ("x") ++ '=' :: toL ("1")]) =
      (FlagVal.mapVal [(toL ("x"), PropVal.str (toL ("1"))),
        (delimKey, delimMarker)], none) :=
  claim_C2 (toL ("x")) (toL ("1")) (by decide) (by decide) (by decide)
    (by decide) (by decide) (by decide) (by decide) (by decide)

/-- C3 counterexample: with the input array holding delimiters=x and
bad, the loop accumulates the binding of delimiters to x and an error
is raised, but the stored flag value is not that accumulated partial
map: the post-loop marker assignment overwrites the binding, so the
stored object holds only the marker. -/
theorem claim_C3_counterexample :
    (vrun [toL ("delimiters=x"), toL ("bad")]).entries =
      [(toL ("delimiters"), toL ("x"))] ∧
    (verify (FlagVal.strArr [toL ("delimiters=x"), toL ("bad")])).2.isSome
      = true ∧
    (verify (FlagVal.strArr [toL ("delimiters=x"), toL ("bad")])).1 =
      FlagVal.mapVal [(delimKey, delimMarker)] ∧
    (verify (FlagVal.strArr [toL ("delimiters=x"), toL ("bad")])).1 ≠
      FlagVal.mapVal
        (strProps (vrun [toL ("delimiters=x"), toL ("bad")]).entries) := by
  decide

/-- C3 (amended): verification replaces the array-valued flag,
unconditionally and before any error is raised, with the accumulated
partial map carrying the delimiters marker property written over it —
which overwrites an accumulated entry keyed delimiters, if any — and
never leaves the original array; when no accumulated entry is keyed
delimiters, the stored value is exactly the partial map of
well-formed, non-duplicate entries followed by the marker, also when
an error is raised; in particular with entries a=1 and bad the error
is raised yet the stored value is the map with the single binding of
a to 1 plus the marker. -/
theorem claim_C3 :
    (∀ arr : List Str,
      (verify (FlagVal.strArr arr)).1 = FlagVal.mapVal
        (setProp (strProps (vrun arr).entries) delimKey delimMarker)) ∧
    (∀ arr : List Str, (∀ p ∈ (vrun arr).entries, p.1 ≠ delimKey) →
      (verify (FlagVal.strArr arr)).1 = FlagVal.mapVal
        (strProps (vrun arr).entries ++ [(delimKey, delimMarker)])) ∧
    ((verify (FlagVal.strArr [toL ("a=1"), toL ("bad")])).2.isSome = true ∧
     (verify (FlagVal.strArr [toL ("a=1"), toL ("bad")])).1 =
       FlagVal.mapVal [(toL ("a"), PropVal.str (toL ("1"))),
         (delimKey, delimMarker)]) := by
  refine ⟨fun _ => rfl, ?_, by decide, by decide⟩
  intro arr h
  show FlagVal.mapVal
    (setProp (strProps (vrun arr).entries) delimKey delimMarker) = _
  rw [setProp_append delimMarker (strProps_keys h)]

/-- Witness for C3 (amended) at the combined input of the claim. -/
theorem claim_C3_witness :
    (verify (FlagVal.strArr [toL ("a=1"), toL ("bad")])).1 =
      FlagVal.mapVal (strProps (vrun [toL ("a=1"), toL ("bad")]).entries ++
        [(delimKey, delimMarker)]) :=
  claim_C3.2.1 [toL ("a=1"), toL ("bad")] (by decide)

/-- C4 counterexample: the entry a=b= contains two equals signs, yet
the match does not split at the last one (which would give key a=b
and empty value): it yields key a and value b=. -/
theorem claim_C4_counterexample :
    (toL ("a=b=")).count '=' = 2 ∧
    execMatch (toL ("a=b=")) ≠ some (toL ("a=b"), []) ∧
    execMatch (toL ("a=b=")) = some (toL ("a"), toL ("b=")) := by
  decide

/-- C4 (amended): for every entry without newlines of the form p=v
with p and v non-empty where v contains no equals sign followed by
further text, the match splits at that last viable equals sign: the
key is everything before it and the value everything after it; in
particular a=b=c yields key a=b and value c. -/
theorem claim_C4 (p v : Str) (hp : p ≠ []) (hv : v ≠ [])
    (hnp : '\n' ∉ p) (hnv : '\n' ∉ v)
    (hlast : ¬ ∃ v1 v2, v = v1 ++ '=' :: v2 ∧ v2 ≠ []) :
    execMatch (p ++ '=' :: v) = some (p, v) :=
  execMatch_append hp hv hnp hnv (splitLastEq0_eq_none_of_no_tail hlast)

/-- Witness for C4 (amended) at the entry a=b=c of the claim. -/
theorem claim_C4_witness :
    execMatch (toL ("a=b") ++ '=' :: toL ("c")) =
      some (toL ("a=b"), toL ("c")) :=
  claim_C4 (toL ("a=b")) (toL ("c")) (by decide) (by decide) (by decide)
    (by decide) (not_mem_no_tail (by decide))

/-- C5: for every input array containing an entry that has no equals
sign or empty text on a side of every equals sign, the entry is
appended to the malformed list and never inserted into the map, and
verification raises an error whose message lists the serialized entry
and states the required shape of an entry. -/
theorem claim_C5 :
    (∀ (st : VState) (e : Str), MalformedShape e →
        vstep st e = { st with bad := st.bad ++ [e] }) ∧
    (∀ (pre post : List Str) (e : Str), MalformedShape e →
        ∃ msg, (verify (FlagVal.strArr (pre ++ e :: post))).2 = some msg ∧
          OccursIn (stringifyStr e) msg ∧ OccursIn shapeNote msg) := by
  constructor
  · intro st e h
    exact vstep_badstep (malformed_execMatch h)
  · intro pre post e h
    have hbad : ∃ t, (vrun (pre ++ e :: post)).bad =
        ((vrun pre).bad ++ [e]) ++ t := by
      rw [vrun_append, List.foldl_cons]
      obtain ⟨t, ht⟩ := foldl_bad post (vstep (vrun pre) e)
      refine ⟨t, ?_⟩
      rw [ht, vstep_badstep (malformed_execMatch h)]
    obtain ⟨t, ht⟩ := hbad
    have hmem : e ∈ (vrun (pre ++ e :: post)).bad := by rw [ht]; simp
    exact ⟨_, verify_err_some (Or.inl (List.ne_nil_of_mem hmem)),
      occursIn_msg_of_bad _ hmem,
      occursIn_msg_shapeNote _ (List.ne_nil_of_mem hmem)⟩

/-- Witness for C5 at the concrete malformed entry abc. -/
theorem claim_C5_witness :
    (vstep ⟨[], [], []⟩ (toL ("abc")) =
      { bad := [toL ("abc")], warn := [], entries := [] }) ∧
    (∃ msg, (verify (FlagVal.strArr ([] ++ toL ("abc") :: []))).2 =
        some msg ∧ OccursIn (stringifyStr (toL ("abc"))) msg ∧
        OccursIn shapeNote msg) := by
  constructor
  · exact claim_C5.1 ⟨[], [], []⟩ (toL ("abc")) (noEq_malformed (by decide))
  · exact claim_C5.2 [] [] (toL ("abc")) (noEq_malformed (by decide))

/-- C6: the default resolver of the replace flag returns absence when
the environment variable is unset or not a string; on a string whose
parse fails it raises an error naming the variable and containing the
parse error text; on a parse result that is not an array it raises
the error instructing the user to format the variable as a JSON
array; and on a parsed array it returns that array. -/
theorem claim_C6 :
    (∀ (pfx : Str) (parse : Str → Except Str Json),
       resolveDefault false pfx EnvVal.unset parse = DefaultResult.absent ∧
       resolveDefault false pfx EnvVal.notStr parse = DefaultResult.absent) ∧
    (∀ (pfx s e : Str) (parse : Str → Except Str Json),
       parse s = Except.error e →
       ∃ msg, resolveDefault false pfx (EnvVal.str s) parse =
           DefaultResult.err msg ∧
         OccursIn (pfx ++ toL ("_REPLACE")) msg ∧ OccursIn e msg) ∧
    (∀ (pfx s : Str) (v : Json) (parse : Str → Except Str Json),
       parse s = Except.ok v → jsonIsArray v = false →
       resolveDefault false pfx (EnvVal.str s) parse =
         DefaultResult.err (toL ("Please format ") ++ [sq] ++
           (pfx ++ toL ("_REPLACE")) ++ [sq] ++
           toL (" as a JSON array."))) ∧
    (∀ (pfx s : Str) (xs : List Json) (parse : Str → Except Str Json),
       parse s = Except.ok (Json.jArr xs) →
       resolveDefault false pfx (EnvVal.str s) parse =
         DefaultResult.val xs) := by
  refine ⟨fun pfx parse => ⟨rfl, rfl⟩, ?_, ?_, ?_⟩
  · intro pfx s e parse hp
    refine ⟨toL ("Could not parse ") ++ [sq] ++ (pfx ++ toL ("_REPLACE")) ++
      [sq] ++ toL (" as a JSON array;\n") ++ e, ?_, ?_, ?_⟩
    · simp [resolveDefault, hp]
    · exact ⟨toL ("Could not parse ") ++ [sq],
        [sq] ++ toL (" as a JSON array;\n") ++ e, by
          simp [List.append_assoc]⟩
    · exact ⟨toL ("Could not parse ") ++ [sq] ++
        (pfx ++ toL ("_REPLACE")) ++ [sq] ++ toL (" as a JSON array;\n"),
        [], by simp [List.append_assoc]⟩
  · intro pfx s v parse hp hv
    cases v with
    | jArr xs => exact absurd hv (by simp [jsonIsArray])
    | jNull => simp [resolveDefault, hp]
    | jBool b => simp [resolveDefault, hp]
    | jNum n => simp [resolveDefault, hp]
    | jStr s2 => simp [resolveDefault, hp]
    | jObj fields => simp [resolveDefault, hp]
  · intro pfx s xs parse hp
    simp [resolveDefault, hp]

/-- Witness for C6 at concrete prefixes and parse outcomes. -/
theorem claim_C6_witness :
    (∃ msg, resolveDefault false (toL ("DEPLOY")) (EnvVal.str (toL ("oops")))
        (fun _ => Except.error (toL ("boom"))) = DefaultResult.err msg ∧
      OccursIn (toL ("DEPLOY") ++ toL ("_REPLACE")) msg ∧
      OccursIn (toL ("boom")) msg) ∧
    (resolveDefault false (toL ("DEPLOY")) (EnvVal.str (toL ("null")))
        (fun _ => Except.ok Json.jNull) =
      DefaultResult.err (toL ("Please format ") ++ [sq] ++
        (toL ("DEPLOY") ++ toL ("_REPLACE")) ++ [sq] ++
        toL (" as a JSON array."))) ∧
    (resolveDefault false (toL ("DEPLOY")) (EnvVal.str (toL ("[]")))
        (fun _ => Except.ok (Json.jArr [])) = DefaultResult.val []) := by
  refine ⟨?_, ?_, ?_⟩
  · exact claim_C6.2.1 (toL ("DEPLOY")) (toL ("oops")) (toL ("boom")) _ rfl
  · exact claim_C6.2.2.1 (toL ("DEPLOY")) (toL ("null")) Json.jNull _ rfl rfl
  · exact claim_C6.2.2.2 (toL ("DEPLOY")) (toL ("[]")) [] _ rfl

/-- C7 counterexample: when the replace flag is still an array of raw
strings, the factory does not return nothing: an array is an object
under the JavaScript typeof test, so a configuration is produced. -/
theorem claim_C7_counterexample :
    getInputPlugin ⟨some ⟨FlagVal.strArr [toL ("a=1")]⟩⟩ ≠ none := by
  decide

/-- C7 (amended): the factory returns the configuration combining
every entry of the normalized replace map plus the preventAssignment
safety option when the replace field is the normalized map object; it
returns nothing when cliFlags is absent or replace is undefined or a
string; but when replace is still an array of raw strings it is an
object under typeof, so the array (with preventAssignment merged in)
is passed to the transform rather than skipped. -/
theorem claim_C7 :
    (∀ m : Props, getInputPlugin ⟨some ⟨FlagVal.mapVal m⟩⟩ =
      some (ReplaceArg.ofMap m true)) ∧
    (getInputPlugin ⟨none⟩ = none) ∧
    (getInputPlugin ⟨some ⟨FlagVal.undef⟩⟩ = none) ∧
    (∀ s : Str, getInputPlugin ⟨some ⟨FlagVal.strv s⟩⟩ = none) ∧
    (∀ a : List Str, getInputPlugin ⟨some ⟨FlagVal.strArr a⟩⟩ =
      some (ReplaceArg.ofArr a true)) :=
  ⟨fun _ => rfl, rfl, rfl, fun _ => rfl, fun _ => rfl⟩

/-- C8: when both malformed and duplicate entries are present, a
single error is raised whose message is exactly the fixed preface,
then the malformed-entries line, then a newline, then the
duplicate-entries line, in that order. -/
theorem claim_C8 (arr : List Str) (hb : (vrun arr).bad ≠ [])
    (hw : (vrun arr).warn ≠ []) :
    (verify (FlagVal.strArr arr)).2 =
      some (preface ++ badText (vrun arr).bad ++ toL ("\n") ++
        warnText (vrun arr).warn) := by
  rw [verify_err_some (Or.inl hb)]
  rw [buildMsg_eq, if_pos (List.length_pos.2 hb),
    if_pos (List.length_pos.2 hw), if_pos (List.length_pos.2 hb)]
  simp [List.append_assoc]

/-- Witness for C8 at the combined-failure array of the claim. -/
theorem claim_C8_witness :
    (verify (FlagVal.strArr [toL ("bad"), toL ("a=1"), toL ("a=2")])).2 =
      some (preface ++ badText [toL ("bad")] ++ toL ("\n") ++
        warnText [toL ("a=2")]) :=
  claim_C8 [toL ("bad"), toL ("a=1"), toL ("a=2")] (by decide) (by decide)

/-- C9: for a well-formed entry whose key is a property name
inherited from Object.prototype, the membership test used for the
duplicate check reports the key as present in the empty accumulating
object even though it is not an own key, so the first such entry is
classified as a duplicate, never inserted, and verification raises an
error. -/
theorem claim_C9 (k v : Str) (hk : k ∈ protoNames) (hv : v ≠ [])
    (hev : '=' ∉ v) (hnv : '\n' ∉ v) :
    ownKey [] k = false ∧ keyIn [] k = true ∧
    (vrun [k ++ '=' :: v]).warn = [k ++ '=' :: v] ∧
    (vrun [k ++ '=' :: v]).entries = [] ∧
    (verify (FlagVal.strArr [k ++ '=' :: v])).1 =
      FlagVal.mapVal [(delimKey, delimMarker)] ∧
    (verify (FlagVal.strArr [k ++ '=' :: v])).2.isSome = true := by
  obtain ⟨hk1, hk2, hk3⟩ := protoNames_wf k hk
  have hm : execMatch (k ++ '=' :: v) = some (k, v) :=
    execMatch_append hk1 hv hk3 hnv (splitLastEq0_eq_none hev)
  have hin : keyIn [] k = true := by simp [keyIn, ownKey, hk]
  have hvr : vrun [k ++ '=' :: v] = ⟨[], [k ++ '=' :: v], []⟩ := by
    simp only [vrun, List.foldl_cons, List.foldl_nil]
    rw [vstep_dup hm hin]
    rfl
  refine ⟨rfl, hin, by rw [hvr], by rw [hvr], ?_, ?_⟩
  · show FlagVal.mapVal (verifyArr _).1 = _
    simp only [verifyArr, hvr]
    rfl
  · rw [verify_err_some (by rw [hvr]; exact Or.inr (by simp))]
    rfl

/-- Witness for C9 at the concrete entry toString=x. -/
theorem claim_C9_witness :
    ownKey [] (toL ("toString")) = false ∧
    keyIn [] (toL ("toString")) = true ∧
    (vrun [toL ("toString") ++ '=' :: toL ("x")]).warn =
      [toL ("toString") ++ '=' :: toL ("x")] ∧
    (vrun [toL ("toString") ++ '=' :: toL ("x")]).entries = [] ∧
    (verify (FlagVal.strArr [toL ("toString") ++ '=' :: toL ("x")])).1 =
      FlagVal.mapVal [(delimKey, delimMarker)] ∧
    (verify (FlagVal.strArr [toL ("toString") ++ '=' :: toL ("x")])).2.isSome
      = true :=
  claim_C9 (toL ("toString")) (toL ("x")) (by decide) (by decide)
    (by decide) (by decide)

/-- C10: whenever the flag value is an array, the stored object
carries the delimiters property holding the two-element marker of
empty strings unconditionally, including when an error is raised. -/
theorem claim_C10 :
    (∀ arr : List Str, ∃ props,
      (verify (FlagVal.strArr arr)).1 = FlagVal.mapVal props ∧
      (delimKey, delimMarker) ∈ props) ∧
    ((verify (FlagVal.strArr [toL ("bad")])).2.isSome = true ∧
     (verify (FlagVal.strArr [toL ("bad")])).1 =
       FlagVal.mapVal [(delimKey, delimMarker)]) :=
  ⟨fun arr => ⟨setProp (strProps (vrun arr).entries) delimKey delimMarker,
    rfl, setProp_mem _ _ _⟩, by decide, by decide⟩

end PluginReplace
